import Mathlib

/-!
Verification development for the optimistic-delete / undo coordination
subsystem of the scribe repository.

The subsystem consists of four components:
* the Ordering Helper (`restoreTranscription` in the history view),
* the Callback Registry (`restoreCallbacks` with `registerCallbacks` /
  `unregisterCallbacks`),
* the Deletion Queue (`queueDeletion` / `deletionInProgress`, a promise
  chain serializing `permanentlyDelete` calls),
* the Pending-Delete Store (`pendingDelete` slot, `scheduleDelete`,
  `undoDelete`, and the grace timer).

The embedding models JavaScript's single-threaded cooperative scheduling
explicitly: synchronous code segments are atomic Lean functions on a store
state, and the points where the source suspends (the `await` inside
`scheduleDelete`, the settlement of a queued commit, the firing of a
`setTimeout` timer) are discrete events of a small-step interpreter.
Promise settlement is modelled by the two-valued type `Settled`
(fulfilled / rejected); the external `invoke("delete_transcription")`
call's outcome is an oracle `commitOk : Nat → Bool` indexed by the id
being deleted.
-/

namespace Scribe

/-- The `Transcription` record of the source (`export interface
Transcription`): a unique integer id, display fields, and a creation
timestamp string. -/
structure Transcription where
  id : Nat
  text : String
  language : String
  duration_ms : Nat
  word_count : Nat
  created_at : String
  deriving Repr, DecidableEq

/-! ## Ordering Helper (`restoreTranscription` in HistoryView) -/

/-- JavaScript's `Array.prototype.findIndex`: index of the first element
satisfying the predicate, `none` when no element does (the source's `-1`). -/
def findIndex (p : α → Bool) : List α → Option Nat
  | [] => none
  | a :: l => if p a then some 0 else (findIndex p l).map (· + 1)

/-- The comparator closure passed to `findIndex` inside
`restoreTranscription`: with `tCreated = new Date(t.created_at).getTime()`
and `restoreCreated = new Date(transcription.created_at).getTime()`, it
returns `tCreated < restoreCreated` when the timestamps differ and
`t.id < transcription.id` otherwise.  The `Date` parse is abstracted as a
function `getTime : String → Int` on the stored timestamp strings. -/
def restorePred (getTime : String → Int) (target t : Transcription) : Bool :=
  let tCreated := getTime t.created_at
  let restoreCreated := getTime target.created_at
  if tCreated ≠ restoreCreated then decide (tCreated < restoreCreated)
  else decide (t.id < target.id)

/-- Function `restoreTranscription` from the history view: find the first index
whose element satisfies `restorePred`; `splice(insertIndex, 0, target)`
there, or `push(target)` when `findIndex` returned `-1`. -/
def restoreTranscription (getTime : String → Int) (target : Transcription)
    (l : List Transcription) : List Transcription :=
  match findIndex (restorePred getTime target) l with
  | none => l ++ [target]
  | some i => l.take i ++ target :: l.drop i

/-- The `(createdAt, id)` tuple of an item, with the timestamp parsed. -/
def tupleOf (getTime : String → Int) (t : Transcription) : Int × Nat :=
  (getTime t.created_at, t.id)

/-- Strict lexicographic order on `(createdAt, id)` tuples, as the spec
words it: earlier timestamp, or equal timestamp and smaller id. -/
def tupleLt (a b : Int × Nat) : Bool :=
  decide (a.1 < b.1) || (decide (a.1 = b.1) && decide (a.2 < b.2))

/-- Modelled from the spec's words (Ordering Helper): insert the target
immediately before the first element whose tuple is strictly less than the
target's tuple, appending at the end when no such element exists. -/
def insertBeforeFirstLt (getTime : String → Int) (target : Transcription)
    (l : List Transcription) : List Transcription :=
  l.takeWhile (fun t => !tupleLt (tupleOf getTime t) (tupleOf getTime target))
    ++ target ::
      l.dropWhile (fun t => !tupleLt (tupleOf getTime t) (tupleOf getTime target))

/-- Timestamp parse used by concrete witnesses: three instants with
`"T3"` newest. -/
def witnessTime : String → Int :=
  fun s => if s = "T3" then 3 else if s = "T2" then 2 else 1

/-- Transcription with the given id and timestamp string, display fields
empty; used by concrete witnesses. -/
def mkT (i : Nat) (c : String) : Transcription :=
  { id := i, text := "", language := "", duration_ms := 0, word_count := 0,
    created_at := c }

/-! ## Pending-Delete Store state

The remaining components live in a single module-level state: the
`pendingDelete` slot, the `restoreCallbacks` map, and the
`deletionInProgress` promise chain.  Timers, the chain, and suspended
`scheduleDelete` calls are represented explicitly so that the
event-interleaving behaviour of the source can be stated. -/

/-- Settlement of a JavaScript promise: fulfilled or rejected.  Values are
irrelevant to this subsystem (all chained promises resolve to `undefined`;
rejection reasons are only logged). -/
inductive Settled
  | fulfilled
  | rejected
  deriving Repr, DecidableEq

/-- Function `permanentlyDelete(id)`: awaits
`invoke("delete_transcription")` and rethrows on failure, so its promise
settles exactly as the external call does.  The external outcome is the
oracle `commitOk`. -/
def permanentlyDelete (commitOk : Nat → Bool) (id : Nat) : Settled :=
  if commitOk id then .fulfilled else .rejected

/-- Settlement of `p.catch(handler)` for a handler that returns normally
(both catch handlers in the source only call `console.error`): the result
always fulfills, whether or not `p` rejected. -/
def pcatch : Settled → Settled
  | .fulfilled => .fulfilled
  | .rejected => .fulfilled

/-- The `PendingDelete` record of the source: the snapshot of the item and
the handle returned by `setTimeout`. -/
structure PendingDelete where
  transcription : Transcription
  timeoutId : Nat
  deriving Repr, DecidableEq

/-- Fixed grace period constant of the source.  Real time is not modelled;
a timer firing is an explicit event. -/
def UNDO_TIMEOUT_MS : Nat := 5000

/-- Behaviour of a registered restore handler, as far as this subsystem
can observe it: a plain handler that either returns normally or throws,
or a handler that reentrantly calls `undoDelete` during the broadcast.
Handlers' own list mutations are outside the store and are tracked only
through the invocation log. -/
inductive HandlerAct
  | plain (throws : Bool)
  | reenters
  deriving Repr, DecidableEq

/-- Outcome of one handler invocation inside the broadcast `forEach`:
returned normally, or threw and was caught (and logged) by the
surrounding `try`/`catch`. -/
inductive CallResult
  | ok
  | caught
  deriving Repr, DecidableEq

/-- One link of the `deletionInProgress` promise chain that has been
created by `queueDeletion` but whose commit has not yet settled.  `tok` is
the position of the link in chaining order; `catchRestore` records the
`.catch(... restore broadcast ...)` continuation that the timeout handler
attaches to the promise `queueDeletion` returns (`none` for links created
by `scheduleDelete`, which awaits instead). -/
structure QueueEntry where
  tok : Nat
  id : Nat
  catchRestore : Option Transcription
  deriving Repr, DecidableEq

/-- The module-level state of the source file, together with the run-time
artefacts of the JavaScript event loop that the source relies on:

* `pendingDelete`, `restoreCallbacks` — the two module-level variables
  (the callback map is an insertion-ordered association list, as a JS
  `Map` is);
* `armed` — one-shot timers created by `setTimeout` and not yet fired nor
  cancelled, with the `transcription` each handler closure captured;
* `nextTimeout` — source of fresh timer handles;
* `chain` — the settled result of the most recently settled link of
  `deletionInProgress` (initially `Promise.resolve()`), consulted by the
  `.then` of the next link when it settles;
* `queued`, `qtok`, `settledCount` — chain links not yet settled, in
  chaining order; the token counter; how many links have settled;
* `commits` — execution log of `permanentlyDelete` invocations, in
  execution order, with the external outcome;
* `submitted` — log of ids passed to `queueDeletion`, in submission order;
* `waiting` — `scheduleDelete` calls suspended at
  `await queueDeletion(previousId)`: the awaited token and the new item;
* `broadcastLog` — invocation log of restore handlers: key, item, result;
* `reentrantResults` — results returned to handlers that reentrantly
  called `undoDelete`, in call order. -/
structure StoreState where
  pendingDelete : Option PendingDelete
  restoreCallbacks : List (String × HandlerAct)
  armed : List (Nat × Transcription)
  nextTimeout : Nat
  chain : Settled
  queued : List QueueEntry
  qtok : Nat
  settledCount : Nat
  commits : List (Nat × Bool)
  submitted : List Nat
  waiting : List (Nat × Transcription)
  broadcastLog : List (String × Transcription × CallResult)
  reentrantResults : List (Option Transcription)
  deriving Repr, DecidableEq

/-- State at module load: empty slot, empty registry, resolved chain. -/
def initState : StoreState :=
  { pendingDelete := none, restoreCallbacks := [], armed := [], nextTimeout := 0,
    chain := .fulfilled, queued := [], qtok := 0, settledCount := 0,
    commits := [], submitted := [], waiting := [], broadcastLog := [],
    reentrantResults := [] }

/-- Synchronous body of `queueDeletion(id)`: chain a new link
`deletionInProgress.then(() => permanentlyDelete(id)).catch(log)` and
return its token (the link the caller may await or attach a catch to).
`catchRestore` is the restore `.catch` the timeout handler attaches to the
returned promise. -/
def queueDeletion (s : StoreState) (id : Nat) (catchRestore : Option Transcription) :
    StoreState × Nat :=
  ({ s with queued := s.queued ++ [{ tok := s.qtok, id := id, catchRestore := catchRestore }],
            qtok := s.qtok + 1,
            submitted := s.submitted ++ [id] }, s.qtok)

mutual

/-- Function `undoDelete()` (lines 93-112): with no pending delete return
`null`; otherwise clear the timeout, null the slot, broadcast the restored
item through `restoreCallbacks.forEach`, and return it.  `fuel` bounds the
depth of reentrant `undoDelete` calls made by handlers; fuel 0 returns the
no-pending result. -/
def undoDeleteFuel : Nat → StoreState → StoreState × Option Transcription
  | 0, s => (s, none)
  | fuel + 1, s =>
    match s.pendingDelete with
    | none => (s, none)
    | some p =>
      let s1 : StoreState :=
        { s with armed := s.armed.filter (fun q => q.1 != p.timeoutId),
                 pendingDelete := none }
      let s2 := runCallbacksFuel fuel s1 s1.restoreCallbacks p.transcription
      (s2, some p.transcription)
termination_by fuel _s => (fuel, 0)

/-- The broadcast loop `restoreCallbacks.forEach((callback) => { try {
callback(t) } catch (e) { console.error(...) } })`: every handler in the
list is invoked with the same item; a throwing handler is recorded as
`caught` and iteration continues with the next handler. -/
def runCallbacksFuel : Nat → StoreState → List (String × HandlerAct) → Transcription →
    StoreState
  | _, s, [], _ => s
  | fuel, s, (k, act) :: rest, t =>
    match act with
    | .plain throws =>
      runCallbacksFuel fuel
        { s with broadcastLog :=
            s.broadcastLog ++ [(k, t, if throws then .caught else .ok)] } rest t
    | .reenters =>
      let su := undoDeleteFuel fuel s
      runCallbacksFuel fuel
        { su.1 with
            broadcastLog := su.1.broadcastLog ++ [(k, t, CallResult.ok)],
            reentrantResults := su.1.reentrantResults ++ [su.2] } rest t
termination_by fuel _s cbs _t => (fuel, cbs.length + 1)

end

/-- Settlement of the head link of the deletion chain.  Its `.then(() =>
permanentlyDelete(id))` runs the commit only if the previous link
fulfilled (and otherwise passes the rejection on without running it); the
`.catch(log)` of `queueDeletion` then settles the link fulfilled either
way.  If the timeout handler attached a restore `.catch` to this link, it
runs only when the link itself rejected, and broadcasts the captured item
through the registry. -/
def settleStep (commitOk : Nat → Bool) (fuel : Nat) (s : StoreState) : StoreState :=
  match s.queued with
  | [] => s
  | e :: rest =>
    let step : Settled × List (Nat × Bool) :=
      match s.chain with
      | .fulfilled => (permanentlyDelete commitOk e.id, s.commits ++ [(e.id, commitOk e.id)])
      | .rejected => (.rejected, s.commits)
    let deletionResult := pcatch step.1
    let s1 : StoreState :=
      { s with queued := rest, settledCount := s.settledCount + 1,
               commits := step.2, chain := deletionResult }
    match e.catchRestore with
    | none => s1
    | some t =>
      if deletionResult = .rejected then runCallbacksFuel fuel s1 s1.restoreCallbacks t
      else s1

/-- Second synchronous segment of `scheduleDelete` (lines 71-90), run on
entry when no delete was pending and on resumption from the `await`
otherwise: arm a fresh grace timer for the new item and install the new
`PendingDelete`, overwriting whatever the slot holds. -/
def scheduleDeleteInstall (s : StoreState) (t : Transcription) : StoreState :=
  { s with armed := s.armed ++ [(s.nextTimeout, t)],
           nextTimeout := s.nextTimeout + 1,
           pendingDelete := some { transcription := t, timeoutId := s.nextTimeout } }

/-- First synchronous segment of `scheduleDelete(transcription)` (lines
60-69).  With a pending delete present: `clearTimeout` its timer, null the
slot, chain its id via `queueDeletion`, and suspend awaiting that link
(recorded in `waiting`); the install segment then runs as
`scheduleDeleteResume`.  With no pending delete the function reaches the
install segment without suspending. -/
def scheduleDeleteCall (s : StoreState) (t : Transcription) : StoreState :=
  match s.pendingDelete with
  | none => scheduleDeleteInstall s t
  | some p =>
    let s1 : StoreState :=
      { s with armed := s.armed.filter (fun q => q.1 != p.timeoutId),
               pendingDelete := none }
    let s2q := queueDeletion s1 p.transcription.id none
    { s2q.1 with waiting := s2q.1.waiting ++ [(s2q.2, t)] }

/-- Resumption of the oldest `scheduleDelete` call whose awaited chain
link has settled (the promise `queueDeletion` returns always fulfills, so
resumption is unconditional): the call continues with the install
segment.  No-op when no suspended call is resumable. -/
def scheduleDeleteResume (s : StoreState) : StoreState :=
  match s.waiting.find? (fun w => decide (w.1 < s.settledCount)) with
  | none => s
  | some w =>
    let s1 : StoreState := { s with waiting := s.waiting.filter (fun w2 => w2.1 != w.1) }
    scheduleDeleteInstall s1 w.2

/-- Firing of the armed one-shot timer with handle `tid` (the closure of
lines 72-88): with the captured `transcription`, if the slot currently
holds an item with the same id, chain its deletion via `queueDeletion`,
attach the restore `.catch` to the returned promise, and null the slot;
otherwise do nothing.  A cancelled or already-fired timer cannot fire. -/
def fireTimer (s : StoreState) (tid : Nat) : StoreState :=
  match s.armed.find? (fun q => q.1 == tid) with
  | none => s
  | some q =>
    let s1 : StoreState := { s with armed := s.armed.filter (fun q2 => q2.1 != tid) }
    match s1.pendingDelete with
    | none => s1
    | some p =>
      if p.transcription.id = q.2.id then
        let s2q := queueDeletion s1 q.2.id (some q.2)
        { s2q.1 with pendingDelete := none }
      else s1

/-- JavaScript `Map.prototype.set` on an insertion-ordered association
list: overwrite in place when the key is present, append otherwise. -/
def mapSet (m : List (String × HandlerAct)) (k : String) (h : HandlerAct) :
    List (String × HandlerAct) :=
  if m.any (fun p => p.1 == k) then m.map (fun p => if p.1 = k then (k, h) else p)
  else m ++ [(k, h)]

/-- JavaScript `Map.prototype.get`: the handler registered for the key. -/
def mapGet (m : List (String × HandlerAct)) (k : String) : Option HandlerAct :=
  (m.find? (fun p => p.1 == k)).map Prod.snd

/-- Function `registerCallbacks(key, onRestore)` (lines 49-54):
`restoreCallbacks.set(key, onRestore)`. -/
def registerCallbacks (s : StoreState) (k : String) (onRestore : HandlerAct) : StoreState :=
  { s with restoreCallbacks := mapSet s.restoreCallbacks k onRestore }

/-- Function `unregisterCallbacks(key)` (lines 56-58):
`restoreCallbacks.delete(key)`. -/
def unregisterCallbacks (s : StoreState) (k : String) : StoreState :=
  { s with restoreCallbacks := s.restoreCallbacks.filter (fun p => p.1 != k) }

/-- Function `hasPendingDelete()` (lines 114-116). -/
def hasPendingDelete (s : StoreState) : Bool :=
  s.pendingDelete.isSome

/-- Events of the cooperative scheduler relevant to the store: a user call
of `scheduleDelete` (its first synchronous segment), the settlement of the
head chain link, the resumption of a suspended `scheduleDelete`, and the
firing of an armed timer. -/
inductive StoreEvent
  | call (t : Transcription)
  | settle
  | resume
  | fire (tid : Nat)
  deriving Repr, DecidableEq

/-- One scheduler step. -/
def storeStep (commitOk : Nat → Bool) (fuel : Nat) (s : StoreState) :
    StoreEvent → StoreState
  | .call t => scheduleDeleteCall s t
  | .settle => settleStep commitOk fuel s
  | .resume => scheduleDeleteResume s
  | .fire tid => fireTimer s tid

/-- Run a sequence of scheduler events. -/
def runEvents (commitOk : Nat → Bool) (fuel : Nat) (s : StoreState) :
    List StoreEvent → StoreState
  | [] => s
  | e :: evs => runEvents commitOk fuel (storeStep commitOk fuel s e) evs

/-- Observable outcome of invoking a handler inside the broadcast
`try`/`catch`: a throwing handler is caught, the others return normally. -/
def handlerResult : HandlerAct → CallResult
  | .plain throws => if throws then .caught else .ok
  | .reenters => .ok

/-- Invariant of the Deletion Queue: the latest settled chain link always
fulfilled (each link ends in `.catch`), the ids committed so far followed
by the ids still queued are exactly the ids submitted, in submission
order, and every executed commit carries the external outcome for its own
id. -/
def QueueInv (commitOk : Nat → Bool) (s : StoreState) : Prop :=
  s.chain = .fulfilled
    ∧ s.commits.map Prod.fst ++ s.queued.map QueueEntry.id = s.submitted
    ∧ ∀ e ∈ s.commits, e.2 = commitOk e.1

/-- Concrete state for witnesses: one plain registered view, item 1
scheduled for deletion (timer handle 0 armed). -/
def witnessPendingState : StoreState :=
  runEvents (fun _ => true) 1
    (registerCallbacks initState "history-view" (.plain false))
    [.call (mkT 1 "T1")]

/-- Concrete state for witnesses: three registered handlers of which the
middle one throws; nothing pending. -/
def witnessThrowState : StoreState :=
  { initState with
    restoreCallbacks := [("a", .plain false), ("b", .plain true), ("c", .plain false)] }

/-- Concrete state for witnesses: a handler that reentrantly calls
`undoDelete`, item 1 scheduled for deletion. -/
def witnessReentrantState : StoreState :=
  runEvents (fun _ => true) 1
    { initState with restoreCallbacks := [("view", HandlerAct.reenters)] }
    [.call (mkT 1 "T1")]

/-- Concrete trace for witnesses: items 1 and 2 are submitted (the second
and third `scheduleDelete` calls finalize their predecessors), the commit
of id 1 fails, the commit of id 2 still executes afterwards. -/
def witnessChainTrace : List StoreEvent :=
  [.call (mkT 1 "T1"), .call (mkT 2 "T2"), .settle, .resume,
   .call (mkT 3 "T3"), .settle, .resume]

/-- State after `witnessChainTrace` with the commit of id 1 failing. -/
def witnessChainState : StoreState :=
  runEvents (fun id => id != 1) 1 initState witnessChainTrace

/-- Concrete state for witnesses: the overlap race.  Item 1 is scheduled;
scheduling item 2 suspends awaiting item 1's commit; item 3 is scheduled
during the suspension (slot was empty) and installs with timer 1; then
item 1's commit settles.  Item 2's call has not yet resumed. -/
def witnessSuspendedState : StoreState :=
  runEvents (fun _ => true) 1 initState
    [.call (mkT 1 "T1"), .call (mkT 2 "T2"), .call (mkT 3 "T3"), .settle]

/-- Concrete state for witnesses: `witnessSuspendedState` after item 2's
call resumed (overwriting item 3's PendingDeletion).  Slot holds item 2
with timer 2; item 3's timer 1 is still armed but stale. -/
def witnessStaleState : StoreState :=
  runEvents (fun _ => true) 1 initState
    [.call (mkT 1 "T1"), .call (mkT 2 "T2"), .call (mkT 3 "T3"), .settle, .resume]

/-- The racing trace run to quiescence: after the overwrite, item 3's
stale timer fires (a no-op), item 2's timer fires and its commit settles. -/
def witnessRaceTrace : List StoreEvent :=
  [.call (mkT 1 "T1"), .call (mkT 2 "T2"), .call (mkT 3 "T3"),
   .settle, .resume, .fire 1, .fire 2, .settle]

/-- Final state of the racing trace (all commits succeed). -/
def witnessRaceState : StoreState :=
  runEvents (fun _ => true) 1 initState witnessRaceTrace

/-! ## Theorems -/

theorem restorePred_eq_tupleLt (getTime : String → Int) (target t : Transcription) :
    restorePred getTime target t
      = tupleLt (tupleOf getTime t) (tupleOf getTime target) := by
  by_cases h : getTime t.created_at = getTime target.created_at <;>
    simp [restorePred, tupleLt, tupleOf, h]

theorem findIndex_insert_eq_takeWhile_dropWhile (p : α → Bool) (x : α) (l : List α) :
    (match findIndex p l with
      | none => l ++ [x]
      | some i => l.take i ++ x :: l.drop i)
      = l.takeWhile (fun a => !p a) ++ x :: l.dropWhile (fun a => !p a) := by
  induction l with
  | nil => rfl
  | cons a l ih =>
    by_cases h : p a
    · simp [findIndex, h, List.takeWhile, List.dropWhile]
    · simp only [findIndex, h, if_neg, Bool.not_eq_true]
      cases hfi : findIndex p l with
      | none =>
        have hih := ih
        rw [hfi] at hih
        simp only at hih
        simp [List.takeWhile_cons, List.dropWhile_cons, h, hih]
      | some i =>
        have hih := ih
        rw [hfi] at hih
        simp only at hih
        simp [List.takeWhile_cons, List.dropWhile_cons, h, hih]

/-- C4: for every target item with tuple `(createdAt, id)` and every list
sorted descending by `(createdAt, id)` (newest first, higher id wins ties at
equal timestamp), the restore insertion routine inserts the target
immediately before the first element whose tuple is strictly
(lexicographically) less than the target's tuple, and appends it at the end
when no such element exists. -/
theorem C4_restore_inserts_before_first_smaller_tuple
    (getTime : String → Int) (target : Transcription) (l : List Transcription)
    (_hsorted : l.Pairwise (fun a b =>
      tupleLt (tupleOf getTime b) (tupleOf getTime a) = true)) :
    restoreTranscription getTime target l = insertBeforeFirstLt getTime target l := by
  unfold restoreTranscription insertBeforeFirstLt
  have hp : restorePred getTime target
      = fun t => tupleLt (tupleOf getTime t) (tupleOf getTime target) :=
    funext (restorePred_eq_tupleLt getTime target)
  rw [hp]
  exact findIndex_insert_eq_takeWhile_dropWhile _ target l

theorem pcatch_fulfilled (x : Settled) : pcatch x = .fulfilled := by
  cases x <;> rfl

theorem undoDeleteFuel_of_no_pending (fuel : Nat) (s : StoreState)
    (h : s.pendingDelete = none) : undoDeleteFuel fuel s = (s, none) := by
  cases fuel with
  | zero => simp [undoDeleteFuel]
  | succ n => rw [undoDeleteFuel, h]

theorem runCallbacksFuel_of_no_pending (fuel : Nat) (cbs : List (String × HandlerAct))
    (s : StoreState) (t : Transcription) (h : s.pendingDelete = none) :
    runCallbacksFuel fuel s cbs t
      = { s with
          broadcastLog := s.broadcastLog
            ++ cbs.map (fun c => (c.1, t, handlerResult c.2)),
          reentrantResults := s.reentrantResults
            ++ (cbs.filter (fun c => c.2 == HandlerAct.reenters)).map
                (fun _ => (none : Option Transcription)) } := by
  induction cbs generalizing s with
  | nil => simp [runCallbacksFuel]
  | cons c rest ih =>
    obtain ⟨k, act⟩ := c
    cases act with
    | plain throws =>
      rw [runCallbacksFuel, ih _ (by simp [h])]
      simp [handlerResult, List.filter_cons]
    | reenters =>
      rw [runCallbacksFuel, undoDeleteFuel_of_no_pending fuel s h,
        ih _ (by simp [h])]
      simp [handlerResult, List.filter_cons]

/-- Witness for C4 at the spec's scenario: reinserting item 3 at time T2
into the sorted list `[id 5 at T3, id 1 at T1]`. -/
theorem C4_restore_inserts_before_first_smaller_tuple_witness :
    ([mkT 5 "T3", mkT 1 "T1"].Pairwise (fun a b =>
        tupleLt (tupleOf witnessTime b) (tupleOf witnessTime a) = true))
      ∧ restoreTranscription witnessTime (mkT 3 "T2") [mkT 5 "T3", mkT 1 "T1"]
          = insertBeforeFirstLt witnessTime (mkT 3 "T2") [mkT 5 "T3", mkT 1 "T1"] :=
  ⟨by decide,
   C4_restore_inserts_before_first_smaller_tuple witnessTime (mkT 3 "T2")
     [mkT 5 "T3", mkT 1 "T1"] (by decide)⟩

/-- C5: `undoDelete` with no PendingDeletion returns an empty result
(null) without error and changes no state; otherwise it cancels the timer,
clears the pending slot, returns exactly the pending item, and broadcasts
that item to every registered callback — and never submits anything to the
Deletion Queue: the chain fields (`chain`, `queued`, `qtok`, `commits`,
`submitted`) are untouched by the resulting record update. -/
theorem C5_undoDelete_contract (s : StoreState) (fuel : Nat) :
    (s.pendingDelete = none → undoDeleteFuel fuel s = (s, none))
    ∧ (∀ p, s.pendingDelete = some p →
        undoDeleteFuel (fuel + 1) s
          = ({ s with
               pendingDelete := none,
               armed := s.armed.filter (fun q => q.1 != p.timeoutId),
               broadcastLog := s.broadcastLog
                 ++ s.restoreCallbacks.map
                     (fun c => (c.1, p.transcription, handlerResult c.2)),
               reentrantResults := s.reentrantResults
                 ++ (s.restoreCallbacks.filter
                     (fun c => c.2 == HandlerAct.reenters)).map
                     (fun _ => (none : Option Transcription)) },
             some p.transcription)) := by
  constructor
  · intro h
    exact undoDeleteFuel_of_no_pending fuel s h
  · intro p hp
    rw [undoDeleteFuel, hp]
    dsimp only
    rw [runCallbacksFuel_of_no_pending fuel _ _ _ rfl]

/-- Witness for C5 at a concrete state: item 1 pending with timer 0 and
one registered view; `undoDelete` returns item 1 and notifies the view. -/
theorem C5_undoDelete_contract_witness :
    witnessPendingState.pendingDelete
        = some { transcription := mkT 1 "T1", timeoutId := 0 }
    ∧ undoDeleteFuel 2 witnessPendingState
        = ({ witnessPendingState with
             pendingDelete := none,
             armed := witnessPendingState.armed.filter (fun q => q.1 != (0 : Nat)),
             broadcastLog := witnessPendingState.broadcastLog
               ++ witnessPendingState.restoreCallbacks.map
                   (fun c => (c.1, mkT 1 "T1", handlerResult c.2)),
             reentrantResults := witnessPendingState.reentrantResults
               ++ (witnessPendingState.restoreCallbacks.filter
                   (fun c => c.2 == HandlerAct.reenters)).map
                   (fun _ => (none : Option Transcription)) },
           some (mkT 1 "T1")) :=
  ⟨by decide,
   (C5_undoDelete_contract witnessPendingState 1).2
     { transcription := mkT 1 "T1", timeoutId := 0 } (by decide)⟩

/-- C7: when the Store broadcasts a recovered item (the pending slot has
just been cleared), every currently registered handler is invoked
synchronously with that same item, in registry order; a handler that
throws is caught (recorded `caught`) and does not prevent any other
registered handler from running — the log extension is the full map over
the registry regardless of which handlers throw. -/
theorem C7_broadcast_reaches_every_handler (fuel : Nat) (s : StoreState)
    (t : Transcription) (h : s.pendingDelete = none) :
    (runCallbacksFuel fuel s s.restoreCallbacks t).broadcastLog
      = s.broadcastLog
        ++ s.restoreCallbacks.map (fun c => (c.1, t, handlerResult c.2)) := by
  rw [runCallbacksFuel_of_no_pending fuel _ _ _ h]

/-- Witness for C7: with handlers a, b, c of which b throws, all three are
invoked with the same item and c still runs after b's exception. -/
theorem C7_broadcast_reaches_every_handler_witness :
    witnessThrowState.pendingDelete = none
    ∧ (runCallbacksFuel 1 witnessThrowState witnessThrowState.restoreCallbacks
        (mkT 1 "T1")).broadcastLog
        = [("a", mkT 1 "T1", CallResult.ok), ("b", mkT 1 "T1", CallResult.caught),
           ("c", mkT 1 "T1", CallResult.ok)] :=
  ⟨rfl, by
    rw [C7_broadcast_reaches_every_handler 1 witnessThrowState (mkT 1 "T1") rfl]
    decide⟩

/-- C10: `undoDelete` clears the pending slot and cancels the timer before
invoking any restore callback, so every registered handler that
reentrantly calls `undoDelete` during the broadcast receives the empty
result; the item is returned exactly once and each registered handler is
sent it exactly once per pending cycle. -/
theorem C10_reentrant_undo_gets_empty (fuel : Nat) (s : StoreState)
    (p : PendingDelete) (hp : s.pendingDelete = some p) :
    (undoDeleteFuel (fuel + 1) s).2 = some p.transcription
    ∧ (undoDeleteFuel (fuel + 1) s).1.reentrantResults
        = s.reentrantResults
          ++ (s.restoreCallbacks.filter
              (fun c => c.2 == HandlerAct.reenters)).map
              (fun _ => (none : Option Transcription))
    ∧ (undoDeleteFuel (fuel + 1) s).1.broadcastLog
        = s.broadcastLog
          ++ s.restoreCallbacks.map
              (fun c => (c.1, p.transcription, handlerResult c.2))
    ∧ (undoDeleteFuel (fuel + 1) s).1.pendingDelete = none := by
  rw [undoDeleteFuel, hp]
  dsimp only
  rw [runCallbacksFuel_of_no_pending fuel _ _ _ rfl]
  simp

/-- Witness for C10: a single handler that reentrantly calls `undoDelete`
while item 1 is being undone observes the empty result. -/
theorem C10_reentrant_undo_gets_empty_witness :
    witnessReentrantState.pendingDelete
        = some { transcription := mkT 1 "T1", timeoutId := 0 }
    ∧ (undoDeleteFuel 2 witnessReentrantState).2 = some (mkT 1 "T1")
    ∧ (undoDeleteFuel 2 witnessReentrantState).1.reentrantResults = [none] := by
  refine ⟨by decide, ?_, ?_⟩
  · exact (C10_reentrant_undo_gets_empty 1 witnessReentrantState
      { transcription := mkT 1 "T1", timeoutId := 0 } (by decide)).1
  · have h := (C10_reentrant_undo_gets_empty 1 witnessReentrantState
      { transcription := mkT 1 "T1", timeoutId := 0 } (by decide)).2.1
    rw [h]
    decide

theorem mapSet_find_present (k : String) (h : HandlerAct) :
    ∀ m : List (String × HandlerAct), m.any (fun p => p.1 == k) = true →
      (m.map (fun p => if p.1 = k then (k, h) else p)).find? (fun p => p.1 == k)
        = some (k, h) := by
  intro m
  induction m with
  | nil => simp
  | cons p m' ih =>
    intro hany
    by_cases hp : p.1 = k
    · simp [List.find?, hp]
    · have hpb : (p.1 == k) = false := by simpa using hp
      simp only [List.map_cons, if_neg hp, List.find?, hpb]
      apply ih
      simpa [hpb] using hany

theorem mapSet_find_absent (k : String) (h : HandlerAct) :
    ∀ m : List (String × HandlerAct), m.any (fun p => p.1 == k) = false →
      (m ++ [(k, h)]).find? (fun p => p.1 == k) = some (k, h) := by
  intro m
  induction m with
  | nil => simp [List.find?]
  | cons p m' ih =>
    intro hany
    have hpb : (p.1 == k) = false := by
      by_contra hc
      simp only [Bool.not_eq_false, beq_iff_eq] at hc
      simp [hc] at hany
    simp only [List.cons_append, List.find?, hpb]
    apply ih
    simpa [hpb] using hany

theorem mapSet_find_other (k k' : String) (h : HandlerAct) (hne : k' ≠ k) :
    ∀ m : List (String × HandlerAct),
      (mapSet m k h).find? (fun p => p.1 == k') = m.find? (fun p => p.1 == k') := by
  have hkk : (k == k') = false := by simpa using fun he => hne he.symm
  intro m
  unfold mapSet
  by_cases hany : m.any (fun p => p.1 == k) = true
  · rw [if_pos hany]
    clear hany
    induction m with
    | nil => simp
    | cons p m' ih =>
      by_cases hp : p.1 = k
      · have hq : (p.1 == k') = false := by simp [hp, hkk]
        simp only [List.map_cons, if_pos hp, List.find?, hkk, hq]
        exact ih
      · simp only [List.map_cons, if_neg hp, List.find?]
        cases hq : (p.1 == k') with
        | false => exact ih
        | true => rfl
  · rw [if_neg hany]
    clear hany
    induction m with
    | nil => simp [List.find?, hkk]
    | cons p m' ih =>
      simp only [List.cons_append, List.find?]
      cases hq : (p.1 == k') with
      | false => exact ih
      | true => rfl

/-- C8: `registerCallbacks` and `unregisterCallbacks` mutate only the
callback registry and leave the pending slot and its timer (and the whole
deletion chain) unchanged in every state; registering an already-used key
overwrites the prior handler for that key and leaves other keys' handlers
alone; unregistering a key while a deletion is pending does not cancel or
clear the pending deletion. -/
theorem C8_registry_only_mutates_registry :
    (∀ (s : StoreState) (k : String) (h : HandlerAct),
        (registerCallbacks s k h).pendingDelete = s.pendingDelete
        ∧ (registerCallbacks s k h).armed = s.armed
        ∧ (registerCallbacks s k h).queued = s.queued
        ∧ (registerCallbacks s k h).submitted = s.submitted
        ∧ (registerCallbacks s k h).commits = s.commits
        ∧ (registerCallbacks s k h).waiting = s.waiting)
    ∧ (∀ (s : StoreState) (k : String),
        (unregisterCallbacks s k).pendingDelete = s.pendingDelete
        ∧ (unregisterCallbacks s k).armed = s.armed
        ∧ (unregisterCallbacks s k).queued = s.queued
        ∧ (unregisterCallbacks s k).submitted = s.submitted
        ∧ (unregisterCallbacks s k).commits = s.commits
        ∧ (unregisterCallbacks s k).waiting = s.waiting)
    ∧ (∀ (m : List (String × HandlerAct)) (k : String) (h : HandlerAct),
        mapGet (mapSet m k h) k = some h)
    ∧ (∀ (m : List (String × HandlerAct)) (k k' : String) (h : HandlerAct),
        k' ≠ k → mapGet (mapSet m k h) k' = mapGet m k') := by
  refine ⟨fun s k h => ⟨rfl, rfl, rfl, rfl, rfl, rfl⟩,
          fun s k => ⟨rfl, rfl, rfl, rfl, rfl, rfl⟩, ?_, ?_⟩
  · intro m k h
    unfold mapGet mapSet
    by_cases hany : m.any (fun p => p.1 == k) = true
    · rw [if_pos hany, mapSet_find_present k h m hany]
      rfl
    · rw [if_neg hany, mapSet_find_absent k h m (by rwa [Bool.not_eq_true] at hany)]
      rfl
  · intro m k k' h hne
    unfold mapGet
    rw [mapSet_find_other k k' h hne m]

/-- Witness for C8: re-registering key viewA overwrites its handler;
registering viewB leaves viewA's lookup unchanged; unregistering while
item 1 is pending leaves the pending slot intact. -/
theorem C8_registry_only_mutates_registry_witness :
    mapGet (mapSet [("viewA", HandlerAct.plain false)] "viewA" (.plain true)) "viewA"
        = some (.plain true)
    ∧ mapGet (mapSet [("viewA", HandlerAct.plain false)] "viewB" (.plain true)) "viewA"
        = mapGet [("viewA", HandlerAct.plain false)] "viewA"
    ∧ (unregisterCallbacks witnessPendingState "history-view").pendingDelete
        = witnessPendingState.pendingDelete :=
  ⟨C8_registry_only_mutates_registry.2.2.1 [("viewA", HandlerAct.plain false)]
     "viewA" (.plain true),
   C8_registry_only_mutates_registry.2.2.2 [("viewA", HandlerAct.plain false)]
     "viewB" "viewA" (.plain true) (by decide),
   (C8_registry_only_mutates_registry.2.1 witnessPendingState "history-view").1⟩

theorem queueInv_init (commitOk : Nat → Bool) : QueueInv commitOk initState := by
  refine ⟨rfl, rfl, ?_⟩
  intro e he
  simp [initState] at he

theorem queueInv_step (commitOk : Nat → Bool) (fuel : Nat) (s : StoreState)
    (e : StoreEvent) (h : QueueInv commitOk s) :
    QueueInv commitOk (storeStep commitOk fuel s e) := by
  obtain ⟨hc, ho, hk⟩ := h
  cases e with
  | call t =>
    simp only [storeStep, scheduleDeleteCall]
    cases hp : s.pendingDelete with
    | none =>
      exact ⟨hc, ho, hk⟩
    | some p =>
      refine ⟨hc, ?_, hk⟩
      simp only [queueDeletion, List.map_append, List.map_cons, List.map_nil]
      rw [← List.append_assoc, ho]
  | settle =>
    simp only [storeStep, settleStep]
    cases hq : s.queued with
    | nil => exact ⟨hc, ho, hk⟩
    | cons e' rest =>
      rw [hc] at *
      dsimp only
      rw [pcatch_fulfilled]
      simp only [reduceCtorEq, if_false]
      rw [hq] at ho
      have hord : (s.commits ++ [(e'.id, commitOk e'.id)]).map Prod.fst
          ++ rest.map QueueEntry.id = s.submitted := by
        simp only [List.map_append, List.map_cons, List.map_nil]
        rw [List.append_assoc]
        simpa using ho
      have hout : ∀ x ∈ s.commits ++ [(e'.id, commitOk e'.id)], x.2 = commitOk x.1 := by
        intro x hx
        rcases List.mem_append.mp hx with hx | hx
        · exact hk x hx
        · simp at hx
          rw [hx]
      cases e'.catchRestore with
      | none => exact ⟨rfl, hord, hout⟩
      | some t => exact ⟨rfl, hord, hout⟩
  | resume =>
    simp only [storeStep, scheduleDeleteResume]
    cases hf : s.waiting.find? (fun w => decide (w.1 < s.settledCount)) with
    | none => exact ⟨hc, ho, hk⟩
    | some w => exact ⟨hc, ho, hk⟩
  | fire tid =>
    simp only [storeStep, fireTimer]
    cases hf : s.armed.find? (fun q => q.1 == tid) with
    | none => exact ⟨hc, ho, hk⟩
    | some q =>
      dsimp only
      cases hp : s.pendingDelete with
      | none => exact ⟨hc, ho, hk⟩
      | some p =>
        dsimp only
        by_cases hid : p.transcription.id = q.2.id
        · rw [if_pos hid]
          refine ⟨hc, ?_, hk⟩
          simp only [queueDeletion, List.map_append, List.map_cons, List.map_nil]
          rw [← List.append_assoc, ho]
        · rw [if_neg hid]
          exact ⟨hc, ho, hk⟩

theorem queueInv_runEvents (commitOk : Nat → Bool) (fuel : Nat) :
    ∀ (evs : List StoreEvent) (s : StoreState), QueueInv commitOk s →
      QueueInv commitOk (runEvents commitOk fuel s evs) := by
  intro evs
  induction evs with
  | nil => intro s h; exact h
  | cons e evs ih =>
    intro s h
    rw [runEvents]
    exact ih _ (queueInv_step commitOk fuel s e h)

/-- C6: for every sequence of submissions to the Deletion Queue (arising
from any event trace), each new commit is chained onto the settlement of
the prior commit — the chain promise always settles fulfilled, so the
`.then` of the next link always runs its commit — and commits are never
dispatched in parallel: the executed commits followed by the still-queued
ids always equal the submissions in submission order.  A failing commit is
caught (each executed commit records its own external outcome) and every
subsequent submitted commit still executes: once the queue drains, the
executed-commit ids equal the submitted ids, in submission order. -/
theorem C6_deletion_queue_total_order (commitOk : Nat → Bool) (fuel : Nat)
    (evs : List StoreEvent) :
    (runEvents commitOk fuel initState evs).chain = .fulfilled
    ∧ (runEvents commitOk fuel initState evs).commits.map Prod.fst
        ++ (runEvents commitOk fuel initState evs).queued.map QueueEntry.id
        = (runEvents commitOk fuel initState evs).submitted
    ∧ (∀ e ∈ (runEvents commitOk fuel initState evs).commits, e.2 = commitOk e.1)
    ∧ ((runEvents commitOk fuel initState evs).queued = [] →
        (runEvents commitOk fuel initState evs).commits.map Prod.fst
          = (runEvents commitOk fuel initState evs).submitted) := by
  obtain ⟨hc, ho, hk⟩ :=
    queueInv_runEvents commitOk fuel evs initState (queueInv_init commitOk)
  refine ⟨hc, ho, hk, fun hq => ?_⟩
  rw [hq] at ho
  simpa using ho

/-- Witness for C6: the commit of id 1 fails, the commit of id 2 still
executes afterwards, and with the queue drained the executed ids equal the
submitted ids in submission order. -/
theorem C6_deletion_queue_total_order_witness :
    witnessChainState.queued = []
    ∧ witnessChainState.commits = [(1, false), (2, true)]
    ∧ witnessChainState.commits.map Prod.fst = witnessChainState.submitted :=
  ⟨by decide, by decide,
   (C6_deletion_queue_total_order (fun id => id != 1) 1 witnessChainTrace).2.2.2
     (by decide)⟩

/-- C3: for every pending item A (in a quiescent store: no chain link
outstanding, no suspended call, chain settled fulfilled), calling
`scheduleDelete(B)` before A's timer fires cancels A's timer and submits
A's id to the Deletion Queue exactly once (the only new submission of the
run is `A.id`, so B's commit is never scheduled while A's commit
executes); after the call returns (its await settles and it resumes), the
pending slot holds exactly B with a freshly armed timer. -/
theorem C3_schedule_supersede (commitOk : Nat → Bool) (fuel : Nat)
    (s : StoreState) (A B : Transcription) (tidA : Nat)
    (hp : s.pendingDelete = some { transcription := A, timeoutId := tidA })
    (hq : s.queued = [])
    (hw : s.waiting = [])
    (ht : s.qtok = s.settledCount)
    (hc : s.chain = .fulfilled) :
    runEvents commitOk fuel s [.call B, .settle, .resume]
      = { s with
          pendingDelete := some { transcription := B, timeoutId := s.nextTimeout },
          armed := s.armed.filter (fun q => q.1 != tidA) ++ [(s.nextTimeout, B)],
          nextTimeout := s.nextTimeout + 1,
          chain := .fulfilled,
          queued := [],
          qtok := s.qtok + 1,
          settledCount := s.settledCount + 1,
          commits := s.commits ++ [(A.id, commitOk A.id)],
          submitted := s.submitted ++ [A.id],
          waiting := [] } := by
  simp only [runEvents, storeStep, scheduleDeleteCall, hp, queueDeletion]
  simp only [hq, hw, hc, List.nil_append]
  simp only [settleStep]
  rw [pcatch_fulfilled]
  simp only [scheduleDeleteResume]
  rw [List.find?_cons_of_pos _ (by simp [ht])]
  dsimp only
  simp only [scheduleDeleteInstall, List.filter_cons, bne_self_eq_false,
    Bool.false_eq_true, if_false, List.filter_nil]

/-- Witness for C3 at the spec's scenario shape: item 1 pending, then
`scheduleDelete` of item 2; item 1 is committed during the call and item 2
ends up pending with the fresh timer 1. -/
theorem C3_schedule_supersede_witness :
    witnessPendingState.pendingDelete
        = some { transcription := mkT 1 "T1", timeoutId := 0 }
    ∧ runEvents (fun _ => true) 1 witnessPendingState
        [.call (mkT 2 "T2"), .settle, .resume]
        = { witnessPendingState with
            pendingDelete := some { transcription := mkT 2 "T2",
                                    timeoutId := witnessPendingState.nextTimeout },
            armed := witnessPendingState.armed.filter (fun q => q.1 != (0 : Nat))
              ++ [(witnessPendingState.nextTimeout, mkT 2 "T2")],
            nextTimeout := witnessPendingState.nextTimeout + 1,
            chain := .fulfilled,
            queued := [],
            qtok := witnessPendingState.qtok + 1,
            settledCount := witnessPendingState.settledCount + 1,
            commits := witnessPendingState.commits ++ [((mkT 1 "T1").id, true)],
            submitted := witnessPendingState.submitted ++ [(mkT 1 "T1").id],
            waiting := [] } :=
  ⟨by decide,
   C3_schedule_supersede (fun _ => true) 1 witnessPendingState
     (mkT 1 "T1") (mkT 2 "T2") 0 (by decide) (by decide) (by decide)
     (by decide) (by decide)⟩

/-- C9: when a grace timer armed for item X fires, the handler is a
complete no-op (no queue submission, no slot mutation, no broadcast —
only the one-shot timer itself is consumed) unless the pending slot at
firing time holds an item whose id equals X's id; a cancelled or
already-fired timer handle does nothing at all.  A stale timer firing
after undo or supersession therefore commits nothing. -/
theorem C9_stale_timer_noop (s : StoreState) (tid : Nat) :
    (s.armed.find? (fun q => q.1 == tid) = none → fireTimer s tid = s)
    ∧ (∀ q, s.armed.find? (fun q2 => q2.1 == tid) = some q →
        (∀ p, s.pendingDelete = some p → p.transcription.id ≠ q.2.id) →
        fireTimer s tid
          = { s with armed := s.armed.filter (fun q2 => q2.1 != tid) }) := by
  constructor
  · intro h
    unfold fireTimer
    rw [h]
  · intro q hf hne
    unfold fireTimer
    rw [hf]
    dsimp only
    cases hp : s.pendingDelete with
    | none => rfl
    | some p =>
      dsimp only
      rw [if_neg (hne p hp)]

/-- Witness for C9: item 3's stale timer 1 (armed before item 2's call
resumed and overwrote the slot) fires while the slot holds item 2; only
the timer is consumed. -/
theorem C9_stale_timer_noop_witness :
    witnessStaleState.armed.find? (fun q2 => q2.1 == 1) = some (1, mkT 3 "T3")
    ∧ fireTimer witnessStaleState 1
        = { witnessStaleState with
            armed := witnessStaleState.armed.filter (fun q2 => q2.1 != 1) } := by
  refine ⟨by decide, ?_⟩
  apply (C9_stale_timer_noop witnessStaleState 1).2 (1, mkT 3 "T3") (by decide)
  intro p hp
  have h2 : witnessStaleState.pendingDelete
      = some { transcription := mkT 2 "T2", timeoutId := 2 } := by decide
  rw [h2] at hp
  cases Option.some.inj hp
  decide

/-- C2 counterexample: `scheduleDelete` is not single-flight.  Items 1, 2,
3 are scheduled in a row; item 2's call suspends at the await after
nulling the slot, so item 3's call installs synchronously (third
conjunct of the prefix: slot holds item 3).  When item 2's call resumes it
overwrites the slot without finalizing item 3.  Running the system to
quiescence (both remaining timers fired, queue drained), item 3's id was
never submitted to the Deletion Queue: a scheduled item's commit was lost,
refuting the claimed atomicity of finalize-then-install. -/
theorem C2_single_flight_counterexample :
    (runEvents (fun _ => true) 1 initState
        [.call (mkT 1 "T1"), .call (mkT 2 "T2"), .call (mkT 3 "T3")]).pendingDelete
      = some { transcription := mkT 3 "T3", timeoutId := 1 }
    ∧ witnessRaceState.queued = []
    ∧ witnessRaceState.waiting = []
    ∧ witnessRaceState.armed = []
    ∧ witnessRaceState.pendingDelete = none
    ∧ witnessRaceState.submitted = [1, 2]
    ∧ (3 : Nat) ∉ witnessRaceState.submitted := by
  decide

/-- C2 amended: `scheduleDelete` does not complete its finalize-then-install
sequence atomically with respect to other callers — when a suspended call
resumes from the await it installs its item unconditionally, overwriting
the pending slot without submitting the overwritten item to the Deletion
Queue (all chain fields are untouched by the resume step), so an item
installed by an overlapping call during the suspension loses its commit;
at most one PendingDeletion exists at any instant only because the slot is
a single reference. -/
theorem C2_resume_overwrites_unconditionally (s : StoreState)
    (w : Nat × Transcription)
    (hf : s.waiting.find? (fun w2 => decide (w2.1 < s.settledCount)) = some w) :
    scheduleDeleteResume s
      = { s with
          waiting := s.waiting.filter (fun w2 => w2.1 != w.1),
          armed := s.armed ++ [(s.nextTimeout, w.2)],
          nextTimeout := s.nextTimeout + 1,
          pendingDelete := some { transcription := w.2,
                                  timeoutId := s.nextTimeout } } := by
  unfold scheduleDeleteResume scheduleDeleteInstall
  rw [hf]

/-- Witness for the amended C2: in the race state, item 2's suspended call
resumes and overwrites item 3's PendingDeletion without submitting it. -/
theorem C2_resume_overwrites_unconditionally_witness :
    witnessSuspendedState.waiting.find?
        (fun w2 => decide (w2.1 < witnessSuspendedState.settledCount))
        = some (0, mkT 2 "T2")
    ∧ witnessSuspendedState.pendingDelete
        = some { transcription := mkT 3 "T3", timeoutId := 1 }
    ∧ scheduleDeleteResume witnessSuspendedState
        = { witnessSuspendedState with
            waiting := witnessSuspendedState.waiting.filter
              (fun w2 => w2.1 != (0 : Nat)),
            armed := witnessSuspendedState.armed
              ++ [(witnessSuspendedState.nextTimeout, mkT 2 "T2")],
            nextTimeout := witnessSuspendedState.nextTimeout + 1,
            pendingDelete := some { transcription := mkT 2 "T2",
                                    timeoutId := witnessSuspendedState.nextTimeout } } :=
  ⟨by decide, by decide,
   C2_resume_overwrites_unconditionally witnessSuspendedState (0, mkT 2 "T2")
     (by decide)⟩

/-- C1 (code bug): the spec says that when the timed-out commit fails the
handler broadcasts the item back through every registered restore
callback.  In the code, `queueDeletion`'s internal `.catch` settles the
promise it returns fulfilled even when the commit rejected, so the
`.catch(... broadcast ...)` the timeout handler attaches to it never
runs: settling a chain link never extends the broadcast log (first
clause), and in the concrete failing run — item 1 scheduled, its timer
fires, its commit fails with a view registered — the commit is recorded
as failed yet no restore callback is invoked. -/
theorem C1_timeout_failure_never_broadcasts :
    (∀ (commitOk : Nat → Bool) (fuel : Nat) (s : StoreState),
        (settleStep commitOk fuel s).broadcastLog = s.broadcastLog)
    ∧ (runEvents (fun _ => false) 1
          (registerCallbacks initState "history-view" (.plain false))
          [.call (mkT 1 "T1"), .fire 0, .settle]).commits = [(1, false)]
    ∧ (runEvents (fun _ => false) 1
          (registerCallbacks initState "history-view" (.plain false))
          [.call (mkT 1 "T1"), .fire 0, .settle]).broadcastLog = [] := by
  refine ⟨?_, by decide, by decide⟩
  intro commitOk fuel s
  unfold settleStep
  cases hq : s.queued with
  | nil => rfl
  | cons e rest =>
    dsimp only
    cases hc : s.chain with
    | fulfilled =>
      dsimp only
      rw [pcatch_fulfilled]
      cases e.catchRestore with
      | none => rfl
      | some t => simp
    | rejected =>
      dsimp only
      cases e.catchRestore with
      | none => rfl
      | some t => simp [pcatch]

end Scribe
